import Mathlib

/-!
Shallow embedding of the neodym kernel's memory subsystem and system-call
dispatch, translated from the Rust sources under `src/crates`, together with
theorems settling the frozen claims about them.

Machine integers (`u64` / `usize`) are modelled as `Nat`, reducing modulo
`2 ^ 64` exactly where the source can overflow.
-/

namespace Neodym

/-- The number of values of `usize` / `u64` on the target (x86_64). -/
def USIZE : Nat := 2 ^ 64

/-! ## `SysResult` (src/crates/lib/neodym-sys-common/src/lib.rs) -/

namespace SysResult

/-- `SysResult::FIRST_ERROR = (-4096isize) as usize`. -/
def FIRST_ERROR : Nat := USIZE - 4096

/-- `SysResult::is_error`: `self.0 >= Self::FIRST_ERROR`. -/
def is_error (v : Nat) : Bool := FIRST_ERROR ≤ v

/-- `SysResult::is_success`: `self.0 < Self::FIRST_ERROR`. -/
def is_success (v : Nat) : Bool := v < FIRST_ERROR

/-- `SysResult::to_result`: values `>= FIRST_ERROR` become `Err(SysError(v))`
(the error carries the raw word), anything else becomes `Ok(v)`. -/
def to_result (v : Nat) : Except Nat Nat :=
  if FIRST_ERROR ≤ v then .error v else .ok v

end SysResult

/-! ## System-call dispatch
(src/crates/kernel/src/x86_64/interrupts/system_call/mod.rs)

The `handle_syscall` trampoline compares the call number in `rax` against
`SystemCall::COUNT` (the static table length); numbers that are not below the
length return `SysError::INVALID_ARGUMENT` via `sysretq` without touching the
table, otherwise the trampoline calls `ND_SYSTEM_CALL_TABLE[rax]` with
`rdi`, `rsi`, `rdx` unchanged and returns its `SysResult` verbatim. -/

/-- Modelled from the spec: the numeric value of `SysError::INVALID_ARGUMENT` is
produced by the `define_SysError_constants!` invocation of the revision this
dispatcher belongs to, which is not under `src/`; the spec only fixes that every
error value lies in `[FIRST_ERROR, usize::MAX]`. We model it as the first error
value, `FIRST_ERROR + 0`. Which exact offset is chosen is irrelevant to the
dispatch claims. -/
def SysError.INVALID_ARGUMENT : Nat := SysResult.FIRST_ERROR

/-- A system-call handler: three `usize` arguments to a `SysResult` word. -/
abbrev SyscallFn := Nat → Nat → Nat → Nat

/-- The dispatch performed by `handle_syscall`: bounds-check the number against
the table length, indirect through the table on success, fixed
`INVALID_ARGUMENT` otherwise. -/
def handle_syscall (table : List SyscallFn) (num a b c : Nat) : Nat :=
  if h : num < table.length then (table.get ⟨num, h⟩) a b c
  else SysError.INVALID_ARGUMENT

/-! ## Page provider (src/crates/kernel/src/x86_64/paging/page_provider.rs) -/

/-- `MemorySegment { base, length }` (src/crates/kernel/src/x86_64/paging/mod.rs). -/
structure MemorySegment where
  base : Nat
  length : Nat
deriving Repr, DecidableEq

/-- One iteration of the segment-collection loop of `PageProvider::new`: merge
the incoming segment into the last collected one when `last.base + last.length
== segment.base`, otherwise push it. -/
def pushSegment (acc : List MemorySegment) (s : MemorySegment) : List MemorySegment :=
  match acc.getLast? with
  | some last =>
      if last.base + last.length = s.base then
        acc.dropLast ++ [⟨last.base, last.length + s.length⟩]
      else acc ++ [s]
  | none => acc ++ [s]

/-- `PageProvider { segments, index }`; `index` is the atomic bump counter. -/
structure PageProvider where
  segments : List MemorySegment
  index : Nat
deriving Repr, DecidableEq

/-- `PageProvider::new`: consume at most `MAX_SEGMENTS = 16` segments from the
input iterator (`usable.take(segments.capacity())`), merging adjacent ones;
the bump index starts at 0. -/
def PageProvider.new (usable : List MemorySegment) : PageProvider :=
  { segments := (usable.take 16).foldl pushSegment [], index := 0 }

/-- The linear scan of `PageProvider::allocate`: subtract each segment's page
count from the claimed ordinal until it falls inside a segment; on failure the
leftover ordinal (what remains after the subtractions) is reported. -/
def locatePage (segs : List MemorySegment) (pageIndex : Nat) : Except Nat Nat :=
  match segs with
  | [] => .error pageIndex
  | s :: rest =>
      let pageCount := s.length / 4096
      if pageIndex < pageCount then .ok (s.base + pageIndex * 4096)
      else locatePage rest (pageIndex - pageCount)

/-- `PageProvider::allocate`, single-caller semantics: `fetch_add(1)` claims
ordinal `index` and bumps the counter; on a successful scan the claimed frame
is returned; when the ordinal is past the last segment the code executes
`self.index.store(page_index)` where `page_index` is the *leftover* ordinal
after the scan's subtractions, and returns `OutOfPhysicalMemory`. -/
def PageProvider.allocate (p : PageProvider) : Option Nat × PageProvider :=
  match locatePage p.segments p.index with
  | .ok addr => (some addr, { p with index := p.index + 1 })
  | .error leftover => (none, { p with index := leftover })

/-! ## Page allocator (src/crates/kernel/src/x86_64/paging/page_allocator.rs)

Single-caller semantics: every `try_lock` succeeds, so a node is skipped only
when its page array is empty (allocate) or full (deallocate). -/

/-- `FreePageListNode::MAX_PAGES = (4096 - 3*8) / 8`. -/
def MAX_PAGES : Nat := (4096 - 8 * 3) / 8

/-- A free-list node: the physical frame `addr` it occupies, and its `pages`
vector (last element = top of the `Vec`, as `Vec::pop` removes the last). -/
structure FreeNode where
  addr : Nat
  pages : List Nat
deriving Repr, DecidableEq

/-- The allocate-side traversal: pop a page from the first node whose `pages`
vector is non-empty. -/
def popFirst : List FreeNode → Option (Nat × List FreeNode)
  | [] => none
  | n :: rest =>
      match n.pages.getLast? with
      | some p => some (p, ⟨n.addr, n.pages.dropLast⟩ :: rest)
      | none => (popFirst rest).map (fun q => (q.1, n :: q.2))

/-- The deallocate-side traversal: push `a` into the first node whose `pages`
vector has room (`Vec::push` succeeds); `none` when every node is full. -/
def pushFirst (a : Nat) : List FreeNode → Option (List FreeNode)
  | [] => none
  | n :: rest =>
      if n.pages.length < MAX_PAGES then some (⟨n.addr, n.pages ++ [a]⟩ :: rest)
      else (pushFirst a rest).map (n :: ·)

/-- `PageAllocator { page_provider, free_pages }`. -/
structure PageAllocator where
  provider : PageProvider
  freeList : List FreeNode
deriving Repr, DecidableEq

/-- The freshly initialized allocator (`PageAllocatorTok::initialize` with a
provider built from `usable`): empty free list. -/
def PageAllocator.init (usable : List MemorySegment) : PageAllocator :=
  { provider := PageProvider.new usable, freeList := [] }

/-- `PageAllocator::allocate`: pop from the free list if possible, otherwise
fall through to the page provider. -/
def PageAllocator.allocate (s : PageAllocator) : Option Nat × PageAllocator :=
  match popFirst s.freeList with
  | some (p, fl) => (some p, { s with freeList := fl })
  | none =>
      ((s.provider.allocate).1, { s with provider := (s.provider.allocate).2 })

/-- `PageAllocator::deallocate`: push into the first node with room; when all
nodes are full (in particular when the list is empty) the deallocated frame is
itself rewritten as a fresh empty `FreePageListNode` and spliced at the tail. -/
def PageAllocator.deallocate (s : PageAllocator) (a : Nat) : PageAllocator :=
  match pushFirst a s.freeList with
  | some fl => { s with freeList := fl }
  | none => { s with freeList := s.freeList ++ [⟨a, []⟩] }

/-! ## Page-owned box (src/crates/kernel/src/allocator/paging/page_box.rs)

`PageBox::new` allocates one frame through the global page allocator
(`create_box`), writes the value into it through the direct map, and returns
`Err(value)` when the allocation fails; `PageBox::into_inner` reads the value
back and hands the frame to `PageAllocator::deallocate` (`destroy_box`). -/

/-- A live `PageBox<T>`: the backing frame and the value stored in it. -/
structure PageBoxM (T : Type) where
  page : Nat
  value : T
deriving Repr, DecidableEq

/-- `PageBox::new(value)` against an explicit allocator state: on allocation
failure the original value is returned unchanged as `Err(value)`. -/
def PageBox.new {T : Type} (s : PageAllocator) (v : T) :
    Except T (PageBoxM T) × PageAllocator :=
  match s.allocate with
  | (none, s') => (.error v, s')
  | (some f, s') => (.ok ⟨f, v⟩, s')

/-- `PageBox::into_inner`: read the stored value, then `destroy_box` returns
the backing frame to the page allocator. -/
def PageBox.intoInner {T : Type} (s : PageAllocator) (b : PageBoxM T) :
    T × PageAllocator :=
  (b.value, s.deallocate b.page)

/-! ## Small-object allocator
(src/crates/kernel/src/allocator/paging/page_based_allocator.rs) -/

/-- `SLOT_SIZE = PAGE_SIZE / usize::BITS = 64`. -/
def SLOT_SIZE : Nat := 4096 / 64

/-- `SLOT_COUNT = PAGE_SIZE / SLOT_SIZE = 64`. -/
def SLOT_COUNT : Nat := 4096 / SLOT_SIZE

/-- `PageMeta::mask(slot_idx, slot_count) = ((1 << slot_count) - 1) << slot_idx`
on `usize`, with release-mode shift semantics (shift amounts taken mod 64,
result truncated to 64 bits). -/
def PageMeta.mask (slot_idx slot_count : Nat) : Nat :=
  ((((1 <<< (slot_count % 64)) - 1) % USIZE) <<< (slot_idx % 64)) % USIZE

/-- The scan loop of `PageMeta::allocate`: starting at `slot_idx = 0`, while
`slot_idx < SLOT_COUNT`, return the first `slot_idx` whose mask is disjoint
from `state`, stepping by `slot_align`. Fueled with 64 iterations, enough for
any stride `slot_align ≥ 1`. -/
def PageMeta.scan (state slot_count slot_align : Nat) : Nat → Nat → Option Nat
  | 0, _ => none
  | fuel + 1, slot_idx =>
      if slot_idx < SLOT_COUNT then
        if state &&& PageMeta.mask slot_idx slot_count = 0 then some slot_idx
        else PageMeta.scan state slot_count slot_align fuel (slot_idx + slot_align)
      else none

/-- `PageMeta::allocate(slot_count, slot_align)` on occupancy word `state`:
returns the chosen start slot (the pointer is `page + slot_idx * SLOT_SIZE`)
and the updated occupancy word (`state |= mask`). -/
def PageMeta.allocate (state slot_count slot_align : Nat) :
    Option (Nat × Nat) :=
  match PageMeta.scan state slot_count slot_align 64 0 with
  | some slot_idx => some (slot_idx, state ||| PageMeta.mask slot_idx slot_count)
  | none => none

/-- The slot alignment computed by `PageBasedAllocator::allocate`:
`1` for alignments below 64, `align / SLOT_SIZE` otherwise. -/
def slotAlignOf (align : Nat) : Nat :=
  if align < 64 then 1 else align / SLOT_SIZE

/-- The slot count computed by `PageBasedAllocator::allocate`:
`(size + SLOT_SIZE - 1) / SLOT_SIZE`. -/
def slotCountOf (size : Nat) : Nat := (size + SLOT_SIZE - 1) / SLOT_SIZE

/-! ## Page-table entries (src/crates/arch/x86_64/src/paging.rs)

A `PageTableEntry` is a raw `u64`; `addr()` masks `0x000f_ffff_ffff_f000`,
`flags()` truncates to the defined flag bits, and `PageTableEntry::new(addr,
flags) = addr | flags.bits()`. `UNUSED` is the zero entry. -/

/-- `PageTableFlags::PRESENT`. -/
def FLAG_PRESENT : Nat := 1
/-- `PageTableFlags::WRITABLE`. -/
def FLAG_WRITABLE : Nat := 2
/-- `PageTableFlags::USER_ACCESSIBLE`. -/
def FLAG_USER_ACCESSIBLE : Nat := 4

/-- Modelled from the spec: `PageTableFlags::USER_0`, the
"architecturally-available user bit reserved by the mapper as `owned`"; the
nd_x86_64 revision defining it is not under `src/`. Bit 9 is the first
software-available PTE bit on x86_64, so `USER_0 = 1 << 9`. -/
def FLAG_OWNED : Nat := 1 <<< 9

/-- `PageTableEntry::addr()`. -/
def entryAddr (e : Nat) : Nat := e &&& 0x000ffffffffff000

/-- `entry.flags().contains(PRESENT)`. -/
def entryPresent (e : Nat) : Bool := e &&& FLAG_PRESENT ≠ 0

/-- `entry.flags().contains(OWNED)`. -/
def entryOwned (e : Nat) : Bool := e &&& FLAG_OWNED ≠ 0

/-- Physical memory holding page tables: an association list from the physical
address of a table to its 512 raw entries. -/
abbrev PhysMem : Type := List (Nat × List Nat)

/-- Read the 512 entries of the table at physical address `t`. -/
def readTable : PhysMem → Nat → List Nat
  | [], _ => []
  | (a, es) :: rest, t => if a = t then es else readTable rest t

/-- Overwrite entry `idx` of the table at `t`. -/
def writeEntry : PhysMem → Nat → Nat → Nat → PhysMem
  | [], _, _, _ => []
  | (a, es) :: rest, t, idx, val =>
      if a = t then (a, es.set idx val) :: rest
      else (a, es) :: writeEntry rest t idx val

/-- Install a fresh zeroed table at physical address `a`
(`core::ptr::write_bytes(new_table_ptr, 0x00, 1)`). -/
def addZeroedTable (mem : PhysMem) (a : Nat) : PhysMem :=
  (a, List.replicate 512 0) :: mem

/-! ## Address-space mapper (src/crates/kernel/src/x86_64/memory_mapper.rs;
the copy at src/crates/kernel/src/arch/x86_64/paging/memory_mapper.rs has the
same `entry` / `create_mapping` / `drop` logic). -/

/-- An x86_64 table index: `(virt >> shift) & 0o777`. -/
def tableIdx (virt shift : Nat) : Nat := (virt >>> shift) &&& 0o777

/-- `MappingError`. -/
inductive MappingError where
  | alreadyMapped (phys : Nat)
  | outOfPhysicalMemory
deriving Repr, DecidableEq

/-- The flags `MemoryMapper::entry` gives to non-leaf entries:
`PRESENT | WRITABLE | USER_ACCESSIBLE | OWNED`. -/
def parentFlags : Nat :=
  FLAG_PRESENT ||| FLAG_WRITABLE ||| FLAG_USER_ACCESSIBLE ||| FLAG_OWNED

/-- A `MemoryMapper` (`l4_table`) together with the physical memory its tables
live in and the page allocator it draws from. -/
structure MapperState where
  mem : PhysMem
  l4_table : Nat
  palloc : PageAllocator
deriving Repr, DecidableEq

/-- One step of the loop in `MemoryMapper::entry` over `[l4_idx, l3_idx,
l2_idx]`: on a zero entry allocate a fresh zeroed table, store `page |
parent_flags` into the entry and descend into it; on a nonzero entry descend
into `entry.addr()`. `none` models the `OutOfPhysicalMemory` early return. -/
def mapperStep (st : MapperState) (table idx : Nat) :
    Option (MapperState × Nat) :=
  let e := (readTable st.mem table).getD idx 0
  if e = 0 then
    match st.palloc.allocate with
    | (none, _) => none
    | (some page, pa) =>
        let mem1 := addZeroedTable st.mem page
        let mem2 := writeEntry mem1 table idx (page ||| parentFlags)
        some ({ mem := mem2, l4_table := st.l4_table, palloc := pa }, page)
  else some (st, entryAddr e)

/-- `MemoryMapper::entry(virtual_address)`: walk the `l4`, `l3` and `l2`
indices, creating intermediate tables on demand, and return the location
(level-1 table, index) of the leaf entry for `virt`. -/
def MapperState.entry (st : MapperState) (virt : Nat) :
    Option (MapperState × Nat × Nat) :=
  match mapperStep st st.l4_table (tableIdx virt 39) with
  | none => none
  | some (st1, t3) =>
      match mapperStep st1 t3 (tableIdx virt 30) with
      | none => none
      | some (st2, t2) =>
          match mapperStep st2 t2 (tableIdx virt 21) with
          | none => none
          | some (st3, t1) => some (st3, t1, tableIdx virt 12)

/-- `MemoryMapper::create_mapping(virt, phys, flags)`: walk to the leaf entry;
if it differs from `PageTableEntry::UNUSED` (the zero word) fail with
`AlreadyMapped(entry.addr())`; otherwise write `PageTableEntry::new(phys,
flags) = phys | flags`. -/
def MapperState.create_mapping (st : MapperState) (virt phys flags : Nat) :
    Except MappingError MapperState :=
  match st.entry virt with
  | none => .error .outOfPhysicalMemory
  | some (st', t1, i1) =>
      let e := (readTable st'.mem t1).getD i1 0
      if e ≠ 0 then .error (.alreadyMapped (entryAddr e))
      else .ok { st' with mem := writeEntry st'.mem t1 i1 (phys ||| flags) }

/-- `MemoryMapper::new`: allocate the PML4 frame and zero it. -/
def MapperState.new (palloc : PageAllocator) : Option MapperState :=
  match palloc.allocate with
  | (none, _) => none
  | (some l4, pa) =>
      some { mem := addZeroedTable [] l4, l4_table := l4, palloc := pa }

/-- `drop_recursive(table, page_allocator, level)` from
`impl Drop for MemoryMapper`, returning the physical frames passed to
`PageAllocator::deallocate` in order: for `level > 1` recurse into every
nonzero entry carrying `OWNED`, then unconditionally deallocate
`table.0[0].addr()` — the address field of the table's FIRST entry. -/
def dropRecursive (mem : PhysMem) : Nat → Nat → List Nat
  | 0, _ => []
  | level + 1, table =>
      let entries := readTable mem table
      let children :=
        if level + 1 > 1 then
          (entries.filter (fun e => e ≠ 0 && entryOwned e)).flatMap
            (fun e => dropRecursive mem level (entryAddr e))
        else []
      children ++ [entryAddr (entries.headD 0)]

/-- The full `MemoryMapper::drop`: `drop_recursive(self.l4_table, _, 4)`. -/
def memoryMapperDropDeallocs (mem : PhysMem) (l4_table : Nat) : List Nat :=
  dropRecursive mem 4 l4_table

/-- Modelled from the spec (refinement side of C1, for comparison with
`memoryMapperDropDeallocs`): the teardown the spec describes — for each
present entry with `owned` set, recurse into the child table (level > 1) and
then deallocate it; at level 1 deallocate the leaf-referenced frame only if it
was `owned`; finally the PML4 itself is deallocated. -/
def specDropRecursive (mem : PhysMem) : Nat → Nat → List Nat
  | 0, _ => []
  | level + 1, table =>
      (readTable mem table).filter (fun e => entryPresent e && entryOwned e)
        |>.flatMap (fun e =>
          if level ≥ 1 then
            specDropRecursive mem level (entryAddr e) ++ [entryAddr e]
          else [entryAddr e])

/-- Modelled from the spec (refinement side of C1): the frames a dropped
mapper should return to the page allocator. -/
def specMapperDropDeallocs (mem : PhysMem) (l4_table : Nat) : List Nat :=
  specDropRecursive mem 4 l4_table ++ [l4_table]

/-! ## Initial paging setup
(src/crates/kernel/src/x86_64/paging/identity_map.rs) -/

/-- `FOUR_KILOBYTES = 4096`. -/
def FOUR_KILOBYTES : Nat := 4096

/-- `TWO_MEGABYTES = 512 * FOUR_KILOBYTES`. -/
def TWO_MEGABYTES : Nat := 512 * FOUR_KILOBYTES

/-- `ONE_GIGABYTE = 512 * TWO_MEGABYTES`. -/
def ONE_GIGABYTE : Nat := 512 * TWO_MEGABYTES

/-- One mapping step performed by `map_range`: the page size used
(`map_1g` / `map_2m` / `map_4k`) and the virtual/physical pair mapped. -/
structure MapStep where
  size : Nat
  virt : Nat
  phys : Nat
deriving Repr, DecidableEq

/-- The steps taken by `map_range(l4, provider, map, virt, phys, amount,
flags)`: while `amount != 0`, take a 1 GiB step when `amount >=
ONE_GIGABYTE`, else a 2 MiB step when `amount >= TWO_MEGABYTES`, else a 4 KiB
step (with `amount.saturating_sub(FOUR_KILOBYTES)`). -/
def mapRangeSteps (virt phys amount : Nat) : List MapStep :=
  if amount = 0 then []
  else if ONE_GIGABYTE ≤ amount then
    ⟨ONE_GIGABYTE, virt, phys⟩ ::
      mapRangeSteps (virt + ONE_GIGABYTE) (phys + ONE_GIGABYTE)
        (amount - ONE_GIGABYTE)
  else if TWO_MEGABYTES ≤ amount then
    ⟨TWO_MEGABYTES, virt, phys⟩ ::
      mapRangeSteps (virt + TWO_MEGABYTES) (phys + TWO_MEGABYTES)
        (amount - TWO_MEGABYTES)
  else
    ⟨FOUR_KILOBYTES, virt, phys⟩ ::
      mapRangeSteps (virt + FOUR_KILOBYTES) (phys + FOUR_KILOBYTES)
        (amount - FOUR_KILOBYTES)
termination_by amount
decreasing_by
  · have h1 : 0 < ONE_GIGABYTE := by decide
    omega
  · have h2 : 0 < TWO_MEGABYTES := by decide
    omega
  · have h3 : 0 < FOUR_KILOBYTES := by decide
    omega

/-- The identity-mapping pass of `setup_paging`:
`map_range(pml4, provider, map, 0, 0, upper_bound, PRESENT | WRITABLE)`. -/
def setupPagingIdentitySteps (upper_bound : Nat) : List MapStep :=
  mapRangeSteps 0 0 upper_bound

/-- Modelled from the spec (refinement side of C8, for comparison with
`mapRangeSteps`): the page-size selection the claim describes — a 1 GiB
mapping when both the address and the remaining length are 1 GiB-aligned,
else a 2 MiB mapping when both are 2 MiB-aligned, else a 4 KiB mapping. -/
def specMapSteps (virt phys amount : Nat) : List MapStep :=
  if amount = 0 then []
  else if virt % ONE_GIGABYTE = 0 ∧ amount % ONE_GIGABYTE = 0 then
    ⟨ONE_GIGABYTE, virt, phys⟩ ::
      specMapSteps (virt + ONE_GIGABYTE) (phys + ONE_GIGABYTE)
        (amount - ONE_GIGABYTE)
  else if virt % TWO_MEGABYTES = 0 ∧ amount % TWO_MEGABYTES = 0 then
    ⟨TWO_MEGABYTES, virt, phys⟩ ::
      specMapSteps (virt + TWO_MEGABYTES) (phys + TWO_MEGABYTES)
        (amount - TWO_MEGABYTES)
  else
    ⟨FOUR_KILOBYTES, virt, phys⟩ ::
      specMapSteps (virt + FOUR_KILOBYTES) (phys + FOUR_KILOBYTES)
        (amount - FOUR_KILOBYTES)
termination_by amount
decreasing_by
  · have h1 : 0 < ONE_GIGABYTE := by decide
    omega
  · have h2 : 0 < TWO_MEGABYTES := by decide
    omega
  · have h3 : 0 < FOUR_KILOBYTES := by decide
    omega

/-! ## Derived notions used by the claims -/

/-- A memory segment is page-aligned in base and length, the precondition
documented on `PageAllocatorTok::initialize` and stated by the spec's data
model for `MemorySegment`. -/
def SegAligned (s : MemorySegment) : Prop :=
  s.base % 4096 = 0 ∧ s.length % 4096 = 0

/-- The frame starting at `f` lies entirely within segment `s`. -/
def frameIn (s : MemorySegment) (f : Nat) : Prop :=
  s.base ≤ f ∧ f + 4096 ≤ s.base + s.length

/-- `f` is a 4 KiB-aligned frame lying within one of the segments of
`input`. -/
def GoodFrame (input : List MemorySegment) (f : Nat) : Prop :=
  f % 4096 = 0 ∧ ∃ s ∈ input, frameIn s f

instance (s : MemorySegment) (f : Nat) : Decidable (frameIn s f) := by
  unfold frameIn; infer_instance

instance (input : List MemorySegment) (f : Nat) : Decidable (GoodFrame input f) := by
  unfold GoodFrame; infer_instance

/-- All pages stored in the page arrays of a free list. -/
def pagesOf : List FreeNode → List Nat
  | [] => []
  | n :: fl => n.pages ++ pagesOf fl

/-- The physical frames occupied by the free-list nodes themselves. -/
def nodeAddrs (fl : List FreeNode) : List Nat := fl.map (·.addr)

/-- The total number of pages covered by a segment list. -/
def totalPages (segs : List MemorySegment) : Nat :=
  (segs.map (·.length / 4096)).sum

/-- The frames the provider has not yet handed out: pages whose ordinal is at
least the current bump index. -/
def providerRemaining (p : PageProvider) : List Nat :=
  ((List.range (totalPages p.segments)).filter (fun k => p.index ≤ k)).filterMap
    (fun k => (locatePage p.segments k).toOption)

/-- The frames currently available for allocation: pages stored in the free
list plus the provider's untouched pages. Frames serving as free-list node
storage are not available. -/
def PageAllocator.availableFrames (s : PageAllocator) : List Nat :=
  pagesOf s.freeList ++ providerRemaining s.provider

/-- The states and returned-frame lists reachable by a single caller issuing
`allocate` and `deallocate` calls against the page allocator, starting from a
freshly initialized allocator over `input`. A `deallocate` is only issued on a
frame some earlier `allocate` returned (the documented safety precondition);
`outs` collects every frame any `allocate` has returned. -/
inductive Reach (input : List MemorySegment) : PageAllocator → List Nat → Prop
  | init : Reach input (PageAllocator.init input) []
  | allocOk : ∀ {s outs a s'}, Reach input s outs →
      s.allocate = (some a, s') → Reach input s' (a :: outs)
  | allocFail : ∀ {s outs s'}, Reach input s outs →
      s.allocate = (none, s') → Reach input s' outs
  | dealloc : ∀ {s outs a}, Reach input s outs → a ∈ outs →
      Reach input (s.deallocate a) outs

/-! ## General list helpers -/

theorem mem_of_getLast? {α : Type} : ∀ {l : List α} {a : α},
    l.getLast? = some a → a ∈ l := by
  intro l
  induction l with
  | nil => intro a h; simp [List.getLast?] at h
  | cons b t ih =>
      intro a h
      cases t with
      | nil =>
          simp [List.getLast?] at h
          simp [h]
      | cons c u =>
          rw [List.getLast?_cons_cons] at h
          exact List.mem_cons_of_mem _ (ih h)

theorem mem_of_mem_dropLast {α : Type} {a : α} {l : List α}
    (h : a ∈ l.dropLast) : a ∈ l := by
  rw [List.dropLast_eq_take] at h
  exact List.take_subset _ _ h

/-! ## Claim theorems: SysResult (C9) -/

/-- Claim C9: a SysResult is a single machine word in which exactly the values
in the range from FIRST_ERROR to usize::MAX encode errors, with FIRST_ERROR =
usize::MAX - 4095; all other values are successes, and is_error, is_success
and to_result agree with this partition. -/
theorem sysResult_error_partition (v : Nat) (hv : v < USIZE) :
    SysResult.FIRST_ERROR = (USIZE - 1) - 4095 ∧
    (SysResult.is_error v = true ↔
      SysResult.FIRST_ERROR ≤ v ∧ v ≤ USIZE - 1) ∧
    (SysResult.is_success v = true ↔ v < SysResult.FIRST_ERROR) ∧
    SysResult.is_success v = !SysResult.is_error v ∧
    (SysResult.FIRST_ERROR ≤ v → SysResult.to_result v = .error v) ∧
    (v < SysResult.FIRST_ERROR → SysResult.to_result v = .ok v) := by
  refine ⟨by decide, ?_, ?_, ?_, ?_, ?_⟩
  · simp only [SysResult.is_error, decide_eq_true_eq]
    omega
  · simp only [SysResult.is_success, decide_eq_true_eq]
  · simp only [SysResult.is_success, SysResult.is_error]
    by_cases h : SysResult.FIRST_ERROR ≤ v
    · simp [h, Nat.not_lt.mpr h]
    · simp [h, Nat.lt_of_not_le h]
  · intro h
    simp [SysResult.to_result, h]
  · intro h
    simp [SysResult.to_result, Nat.not_le.mpr h]

/-- Witness for C9 at the concrete words 5 (a success) and usize::MAX - 10
(an error). -/
theorem sysResult_error_partition_w :
    SysResult.to_result 5 = .ok 5 ∧
    SysResult.to_result (USIZE - 10) = .error (USIZE - 10) :=
  ⟨(sysResult_error_partition 5 (by decide)).2.2.2.2.2 (by decide),
   (sysResult_error_partition (USIZE - 10) (by decide)).2.2.2.2.1 (by decide)⟩

/-! ## Claim theorems: system-call dispatch (C4) -/

/-- Claim C4: for every system-call number and arguments, a number at or past
the static table length yields INVALID_ARGUMENT without reading any table
entry (the result is the same for every table of that length) and without
invoking a handler; an in-range number calls handler[num] with the three
arguments unchanged and returns its result verbatim. -/
theorem handle_syscall_dispatch (table : List SyscallFn) (num a b c : Nat) :
    (table.length ≤ num →
      handle_syscall table num a b c = SysError.INVALID_ARGUMENT ∧
      ∀ table' : List SyscallFn, table'.length = table.length →
        handle_syscall table' num a b c = SysError.INVALID_ARGUMENT) ∧
    ∀ h : num < table.length,
      handle_syscall table num a b c = (table.get ⟨num, h⟩) a b c := by
  constructor
  · intro hge
    constructor
    · simp [handle_syscall, Nat.not_lt.mpr hge]
    · intro table' hlen
      have : ¬ num < table'.length := by omega
      simp [handle_syscall, this]
  · intro h
    simp [handle_syscall, h]

/-- A concrete two-handler dispatch table mirroring the spec's scenario. -/
def exTable : List SyscallFn := [fun a b c => a + b + c, fun _ _ _ => 7]

/-- Witness for C4: with two registered handlers, num = 2 returns
INVALID_ARGUMENT and num = 0 calls handler 0 with the arguments unchanged. -/
theorem handle_syscall_dispatch_w :
    handle_syscall exTable 2 1 2 3 = SysError.INVALID_ARGUMENT ∧
    handle_syscall exTable 0 10 20 30 = 60 := by
  constructor
  · exact ((handle_syscall_dispatch exTable 2 1 2 3).1 (by decide)).1
  · have h := (handle_syscall_dispatch exTable 0 10 20 30).2 (by decide)
    simpa [exTable] using h

/-! ## Claim theorems: page provider exhaustion (C2) -/

/-- A two-page usable segment. -/
def exSegs : List MemorySegment := [⟨0x1000, 0x2000⟩]

/-- Claim C2 is violated by the code (code bug): over the two-page segment at
0x1000, the first two allocations return 0x1000 and 0x2000 in ascending
order; the third exhausts the provider, but the store that the comment says
should restore the previous index instead stores the leftover ordinal 0,
resetting the allocator, so the fourth call returns the already-returned
frame 0x1000 again. -/
theorem pageProvider_exhaustion_reuses_frames :
    (PageProvider.new exSegs).allocate.1 = some 0x1000 ∧
    (PageProvider.new exSegs).allocate.2.allocate.1 = some 0x2000 ∧
    (PageProvider.new exSegs).allocate.2.allocate.2.allocate.1 = none ∧
    (PageProvider.new exSegs).allocate.2.allocate.2.allocate.2.index = 0 ∧
    (PageProvider.new exSegs).allocate.2.allocate.2.allocate.2.allocate.1
      = some 0x1000 := by
  decide

/-! ## Page-allocator invariant (C5) -/

/-- A (possibly merged) segment is aligned and every page it covers is a good
frame of the original input list. -/
def SegCovered (input : List MemorySegment) (s : MemorySegment) : Prop :=
  SegAligned s ∧ ∀ k, k < s.length / 4096 → GoodFrame input (s.base + k * 4096)

theorem segCovered_self {input : List MemorySegment} {s : MemorySegment}
    (hs : s ∈ input) (ha : SegAligned s) : SegCovered input s := by
  obtain ⟨hb, hl⟩ := ha
  refine ⟨⟨hb, hl⟩, fun k hk => ⟨by omega, ⟨s, hs, by omega, by omega⟩⟩⟩

theorem segCovered_merge {input : List MemorySegment} {t s : MemorySegment}
    (ht : SegCovered input t) (hs : SegCovered input s)
    (hadj : t.base + t.length = s.base) :
    SegCovered input ⟨t.base, t.length + s.length⟩ := by
  obtain ⟨tb, tl⟩ := t
  obtain ⟨sb, sl⟩ := s
  obtain ⟨⟨hb, hl⟩, hcov⟩ := ht
  obtain ⟨⟨hb2, hl2⟩, hcov2⟩ := hs
  dsimp only at hadj hb hl hb2 hl2 hcov hcov2
  refine ⟨⟨hb, by dsimp only; omega⟩, fun k hk => ?_⟩
  dsimp only at hk ⊢
  by_cases hk1 : k < tl / 4096
  · exact hcov k hk1
  · have h2 := hcov2 (k - tl / 4096) (by omega)
    have heq : sb + (k - tl / 4096) * 4096 = tb + k * 4096 := by omega
    rw [heq] at h2
    exact h2

theorem pushSegment_covered {input : List MemorySegment}
    {acc : List MemorySegment} {s : MemorySegment}
    (hacc : ∀ t ∈ acc, SegCovered input t) (hs : SegCovered input s) :
    ∀ t ∈ pushSegment acc s, SegCovered input t := by
  intro t ht
  unfold pushSegment at ht
  split at ht
  next last hg =>
    split at ht
    next hadj =>
      rcases List.mem_append.mp ht with h | h
      · exact hacc t (mem_of_mem_dropLast h)
      · rw [List.mem_singleton.mp h]
        exact segCovered_merge (hacc last (mem_of_getLast? hg)) hs hadj
    next hadj =>
      rcases List.mem_append.mp ht with h | h
      · exact hacc t h
      · rw [List.mem_singleton.mp h]; exact hs
  next hg =>
    rcases List.mem_append.mp ht with h | h
    · exact hacc t h
    · rw [List.mem_singleton.mp h]; exact hs

theorem foldl_pushSegment_covered {input : List MemorySegment} :
    ∀ (l : List MemorySegment), (∀ s ∈ l, s ∈ input ∧ SegAligned s) →
    ∀ (acc : List MemorySegment), (∀ t ∈ acc, SegCovered input t) →
    ∀ t ∈ l.foldl pushSegment acc, SegCovered input t := by
  intro l
  induction l with
  | nil => intro _ acc hacc; simpa using hacc
  | cons s rest ih =>
      intro hmem acc hacc
      simp only [List.foldl_cons]
      have hsin := hmem s (List.mem_cons_self _ _)
      exact ih (fun x hx => hmem x (List.mem_cons_of_mem _ hx)) _
        (pushSegment_covered hacc (segCovered_self hsin.1 hsin.2))

theorem pageProviderNew_covered {input : List MemorySegment}
    (hal : ∀ s ∈ input, SegAligned s) :
    ∀ t ∈ (PageProvider.new input).segments, SegCovered input t := by
  unfold PageProvider.new
  exact foldl_pushSegment_covered (input.take 16)
    (fun s hs => ⟨List.take_subset _ _ hs, hal s (List.take_subset _ _ hs)⟩)
    [] (by simp)

theorem locatePage_good {input : List MemorySegment} :
    ∀ {segs : List MemorySegment} {i addr : Nat},
    (∀ t ∈ segs, SegCovered input t) →
    locatePage segs i = .ok addr → GoodFrame input addr := by
  intro segs
  induction segs with
  | nil => intro i addr _ h; simp [locatePage] at h
  | cons s rest ih =>
      intro i addr hcov h
      unfold locatePage at h
      by_cases hi : i < s.length / 4096
      · rw [if_pos hi] at h
        cases h
        exact (hcov s (List.mem_cons_self _ _)).2 i hi
      · rw [if_neg hi] at h
        exact ih (fun t ht => hcov t (List.mem_cons_of_mem _ ht)) h

theorem provider_allocate_ok {p : PageProvider} {addr : Nat}
    (h : locatePage p.segments p.index = .ok addr) :
    p.allocate = (some addr, { p with index := p.index + 1 }) := by
  unfold PageProvider.allocate
  rw [h]

theorem provider_allocate_err {p : PageProvider} {leftover : Nat}
    (h : locatePage p.segments p.index = .error leftover) :
    p.allocate = (none, { p with index := leftover }) := by
  unfold PageProvider.allocate
  rw [h]

theorem allocate_pop {s : PageAllocator} {p : Nat} {fl : List FreeNode}
    (h : popFirst s.freeList = some (p, fl)) :
    s.allocate = (some p, { s with freeList := fl }) := by
  unfold PageAllocator.allocate
  rw [h]

theorem allocate_fallthrough {s : PageAllocator}
    (h : popFirst s.freeList = none) :
    s.allocate =
      ((s.provider.allocate).1, { s with provider := (s.provider.allocate).2 }) := by
  unfold PageAllocator.allocate
  rw [h]

theorem deallocate_push {s : PageAllocator} {a : Nat} {fl : List FreeNode}
    (h : pushFirst a s.freeList = some fl) :
    s.deallocate a = { s with freeList := fl } := by
  unfold PageAllocator.deallocate
  rw [h]

theorem deallocate_newnode {s : PageAllocator} {a : Nat}
    (h : pushFirst a s.freeList = none) :
    s.deallocate a = { s with freeList := s.freeList ++ [⟨a, []⟩] } := by
  unfold PageAllocator.deallocate
  rw [h]

theorem providerAllocate_good {input : List MemorySegment}
    {p p' : PageProvider} {a : Nat}
    (hcov : ∀ t ∈ p.segments, SegCovered input t)
    (h : p.allocate = (some a, p')) :
    GoodFrame input a ∧ p'.segments = p.segments := by
  cases hl : locatePage p.segments p.index with
  | ok addr =>
      rw [provider_allocate_ok hl] at h
      simp only [Prod.mk.injEq, Option.some.injEq] at h
      obtain ⟨rfl, rfl⟩ := h
      exact ⟨locatePage_good hcov hl, rfl⟩
  | error leftover =>
      rw [provider_allocate_err hl] at h
      simp at h

theorem providerAllocate_fail_segments {p p' : PageProvider}
    (h : p.allocate = (none, p')) : p'.segments = p.segments := by
  cases hl : locatePage p.segments p.index with
  | ok addr =>
      rw [provider_allocate_ok hl] at h
      simp at h
  | error leftover =>
      rw [provider_allocate_err hl] at h
      simp only [Prod.mk.injEq] at h
      rw [← h.2]

theorem popFirst_spec : ∀ {fl : List FreeNode} {p : Nat} {fl' : List FreeNode},
    popFirst fl = some (p, fl') →
    p ∈ pagesOf fl ∧ ∀ q ∈ pagesOf fl', q ∈ pagesOf fl := by
  intro fl
  induction fl with
  | nil => intro p fl' h; simp [popFirst] at h
  | cons n rest ih =>
      intro p fl' h
      unfold popFirst at h
      cases hg : n.pages.getLast? with
      | some x =>
          rw [hg] at h
          simp only [Option.some.injEq, Prod.mk.injEq] at h
          obtain ⟨rfl, rfl⟩ := h
          constructor
          · exact List.mem_append.mpr (Or.inl (mem_of_getLast? hg))
          · intro q hq
            simp only [pagesOf] at hq ⊢
            rcases List.mem_append.mp hq with h | h
            · exact List.mem_append.mpr (Or.inl (mem_of_mem_dropLast h))
            · exact List.mem_append.mpr (Or.inr h)
      | none =>
          rw [hg] at h
          cases hr : popFirst rest with
          | none => rw [hr] at h; simp at h
          | some q =>
              obtain ⟨q1, q2⟩ := q
              rw [hr] at h
              have h' : (q1, n :: q2) = (p, fl') := by simpa using h
              injection h' with e1 e2
              subst e1
              subst e2
              obtain ⟨h1, h2⟩ := ih hr
              constructor
              · exact List.mem_append.mpr (Or.inr h1)
              · intro x hx
                simp only [pagesOf] at hx ⊢
                rcases List.mem_append.mp hx with h | h
                · exact List.mem_append.mpr (Or.inl h)
                · exact List.mem_append.mpr (Or.inr (h2 x h))

theorem pushFirst_spec : ∀ {fl fl' : List FreeNode} {a : Nat},
    pushFirst a fl = some fl' →
    (∀ q ∈ pagesOf fl', q = a ∨ q ∈ pagesOf fl) ∧
    a ∈ pagesOf fl' ∧ nodeAddrs fl' = nodeAddrs fl := by
  intro fl
  induction fl with
  | nil => intro fl' a h; simp [pushFirst] at h
  | cons n rest ih =>
      intro fl' a h
      unfold pushFirst at h
      by_cases hroom : n.pages.length < MAX_PAGES
      · rw [if_pos hroom] at h
        simp only [Option.some.injEq] at h
        subst h
        refine ⟨?_, ?_, by simp [nodeAddrs]⟩
        · intro q hq
          simp only [pagesOf] at hq ⊢
          rcases List.mem_append.mp hq with h | h
          · rcases List.mem_append.mp h with h | h
            · exact Or.inr (List.mem_append.mpr (Or.inl h))
            · exact Or.inl (List.mem_singleton.mp h)
          · exact Or.inr (List.mem_append.mpr (Or.inr h))
        · simp [pagesOf]
      · rw [if_neg hroom] at h
        cases hr : pushFirst a rest with
        | none => rw [hr] at h; simp at h
        | some rest' =>
            rw [hr] at h
            have h' : n :: rest' = fl' := by simpa using h
            subst h'
            obtain ⟨h1, h2, h3⟩ := ih hr
            refine ⟨?_, ?_, by simpa [nodeAddrs] using h3⟩
            · intro q hq
              simp only [pagesOf] at hq ⊢
              rcases List.mem_append.mp hq with h | h
              · exact Or.inr (List.mem_append.mpr (Or.inl h))
              · rcases h1 q h with h | h
                · exact Or.inl h
                · exact Or.inr (List.mem_append.mpr (Or.inr h))
            · simp only [pagesOf]
              exact List.mem_append.mpr (Or.inr h2)

theorem pagesOf_append (l1 l2 : List FreeNode) :
    pagesOf (l1 ++ l2) = pagesOf l1 ++ pagesOf l2 := by
  induction l1 with
  | nil => simp [pagesOf]
  | cons n t ih => simp [pagesOf, ih]

instance (s : MemorySegment) : Decidable (SegAligned s) := by
  unfold SegAligned; infer_instance

/-- The invariant maintained by the page allocator: the provider's (merged)
segments are covered by the input, and every page parked in the free list is a
good frame. -/
def AllocInv (input : List MemorySegment) (s : PageAllocator) : Prop :=
  (∀ t ∈ s.provider.segments, SegCovered input t) ∧
  (∀ q ∈ pagesOf s.freeList, GoodFrame input q)

theorem reach_inv {input : List MemorySegment} {s : PageAllocator}
    {outs : List Nat} (hal : ∀ t ∈ input, SegAligned t)
    (h : Reach input s outs) :
    AllocInv input s ∧ ∀ a ∈ outs, GoodFrame input a := by
  induction h with
  | init =>
      exact ⟨⟨pageProviderNew_covered hal, by simp [PageAllocator.init, pagesOf]⟩,
        by simp⟩
  | @allocOk s outs a s' hr heq ih =>
      obtain ⟨⟨hcov, hfl⟩, houts⟩ := ih
      cases hp : popFirst s.freeList with
      | some q =>
          obtain ⟨p, fl⟩ := q
          rw [allocate_pop hp] at heq
          simp only [Prod.mk.injEq, Option.some.injEq] at heq
          obtain ⟨rfl, rfl⟩ := heq
          obtain ⟨h1, h2⟩ := popFirst_spec hp
          refine ⟨⟨hcov, fun x hx => hfl x (h2 x hx)⟩, ?_⟩
          intro x hx
          rcases List.mem_cons.mp hx with h | h
          · rw [h]; exact hfl _ h1
          · exact houts x h
      | none =>
          rw [allocate_fallthrough hp] at heq
          cases hpa : s.provider.allocate with
          | mk o p2 =>
              rw [hpa] at heq
              simp only [Prod.mk.injEq] at heq
              obtain ⟨rfl, rfl⟩ := heq
              obtain ⟨hg, hsegs⟩ := providerAllocate_good hcov hpa
              refine ⟨⟨?_, hfl⟩, ?_⟩
              · simpa [hsegs] using hcov
              · intro x hx
                rcases List.mem_cons.mp hx with h | h
                · rw [h]; exact hg
                · exact houts x h
  | @allocFail s outs s' hr heq ih =>
      obtain ⟨⟨hcov, hfl⟩, houts⟩ := ih
      cases hp : popFirst s.freeList with
      | some q =>
          obtain ⟨p, fl⟩ := q
          rw [allocate_pop hp] at heq
          simp at heq
      | none =>
          rw [allocate_fallthrough hp] at heq
          cases hpa : s.provider.allocate with
          | mk o p2 =>
              rw [hpa] at heq
              simp only [Prod.mk.injEq] at heq
              obtain ⟨rfl, rfl⟩ := heq
              have hsegs := providerAllocate_fail_segments hpa
              exact ⟨⟨by simpa [hsegs] using hcov, hfl⟩, houts⟩
  | @dealloc s outs a hr hmem ih =>
      obtain ⟨⟨hcov, hfl⟩, houts⟩ := ih
      have hga : GoodFrame input a := houts a hmem
      cases hp : pushFirst a s.freeList with
      | some fl' =>
          rw [deallocate_push hp]
          obtain ⟨h1, _, _⟩ := pushFirst_spec hp
          refine ⟨⟨hcov, fun q hq => ?_⟩, houts⟩
          rcases h1 q hq with h | h
          · rw [h]; exact hga
          · exact hfl q h
      | none =>
          rw [deallocate_newnode hp]
          refine ⟨⟨hcov, fun q hq => ?_⟩, houts⟩
          dsimp only at hq
          rw [pagesOf_append] at hq
          simp only [pagesOf, List.append_nil] at hq
          exact hfl q hq

/-- Claim C5: every frame returned by the page allocator at any point in any
single-caller sequence of allocate and deallocate operations is 4 KiB-aligned
and lies within one of the memory segments the allocator was constructed with,
whether it was popped from the free list or drawn from the page provider. -/
theorem pageAllocator_frames_good {input : List MemorySegment}
    {s : PageAllocator} {outs : List Nat}
    (hal : ∀ t ∈ input, SegAligned t) (h : Reach input s outs) :
    ∀ a ∈ outs, GoodFrame input a :=
  (reach_inv hal h).2

/-- A one-page usable segment. -/
def exSegs1 : List MemorySegment := [⟨0x1000, 0x1000⟩]

/-- Witness for C5: a concrete allocate from the freshly initialized allocator
over a one-page segment returns the good frame 0x1000. -/
theorem pageAllocator_frames_good_w :
    GoodFrame exSegs1 0x1000 := by
  have hstep : (PageAllocator.init exSegs1).allocate =
      (some 0x1000, ⟨⟨[⟨0x1000, 0x1000⟩], 1⟩, []⟩) := by decide
  exact pageAllocator_frames_good (by decide)
    (Reach.allocOk Reach.init hstep) 0x1000 (List.mem_cons_self _ _)

/-! ## Free-list node repurposing (C6) -/

/-- Counterexample to claim C6 as stated: over the two-page segment at 0x1000,
the paired sequence allocate(0x1000); deallocate(0x1000) leaves caller-held
frames empty, yet the deallocated frame 0x1000 does not become available
again — it was repurposed as free-list node storage — so the multiset of
available frames after the sequence differs from the initial one. -/
theorem pageAllocator_dealloc_not_available :
    (PageAllocator.init exSegs).allocate.1 = some 0x1000 ∧
    0x1000 ∉
      (((PageAllocator.init exSegs).allocate.2).deallocate 0x1000).availableFrames ∧
    0x1000 ∈
      nodeAddrs ((((PageAllocator.init exSegs).allocate.2).deallocate 0x1000).freeList) ∧
    Multiset.ofList
        ((((PageAllocator.init exSegs).allocate.2).deallocate 0x1000).availableFrames) ≠
      Multiset.ofList ((PageAllocator.init exSegs).availableFrames) := by
  refine ⟨by decide, by decide, by decide, ?_⟩
  intro h
  have h2 : List.Perm
      ((((PageAllocator.init exSegs).allocate.2).deallocate 0x1000).availableFrames)
      ((PageAllocator.init exSegs).availableFrames) := Quotient.exact h
  have := h2.length_eq
  revert this
  decide

theorem pushFirst_isSome {a : Nat} : ∀ {fl : List FreeNode},
    (∃ n ∈ fl, n.pages.length < MAX_PAGES) →
    ∃ fl', pushFirst a fl = some fl' := by
  intro fl
  induction fl with
  | nil => intro h; simp at h
  | cons n rest ih =>
      intro h
      unfold pushFirst
      by_cases hroom : n.pages.length < MAX_PAGES
      · rw [if_pos hroom]; exact ⟨_, rfl⟩
      · rw [if_neg hroom]
        obtain ⟨m, hm, hlt⟩ := h
        rcases List.mem_cons.mp hm with rfl | hm'
        · exact absurd hlt hroom
        · obtain ⟨fl', hfl'⟩ := ih ⟨m, hm', hlt⟩
          rw [hfl']
          exact ⟨_, rfl⟩

theorem pushFirst_none {a : Nat} : ∀ {fl : List FreeNode},
    (∀ n ∈ fl, MAX_PAGES ≤ n.pages.length) → pushFirst a fl = none := by
  intro fl
  induction fl with
  | nil => intro _; rfl
  | cons n rest ih =>
      intro h
      unfold pushFirst
      rw [if_neg (by have := h n (List.mem_cons_self _ _); omega)]
      rw [ih (fun m hm => h m (List.mem_cons_of_mem _ hm))]
      rfl

/-- Claim C6 amended: a deallocated frame becomes available again exactly when
some existing free-list node has room for it — it is pushed into the first
such node, leaving the node frames unchanged, and (for a single-node list) the
very next allocation returns it — while a deallocation that finds no node with
room (in particular the first deallocation ever, when the list is empty)
repurposes the frame itself as a new tail node: the frame becomes list
storage, is not in any page array, and is no longer available. -/
theorem pageAllocator_dealloc_amended (s : PageAllocator) (a : Nat) :
    ((∃ n ∈ s.freeList, n.pages.length < MAX_PAGES) →
      a ∈ pagesOf (s.deallocate a).freeList ∧
      nodeAddrs (s.deallocate a).freeList = nodeAddrs s.freeList) ∧
    ((∀ n ∈ s.freeList, MAX_PAGES ≤ n.pages.length) →
      (s.deallocate a).freeList = s.freeList ++ [⟨a, []⟩] ∧
      pagesOf (s.deallocate a).freeList = pagesOf s.freeList) ∧
    (∀ n : FreeNode, s.freeList = [n] → n.pages.length < MAX_PAGES →
      (s.deallocate a).allocate.1 = some a) := by
  refine ⟨?_, ?_, ?_⟩
  · intro hroom
    obtain ⟨fl', hp⟩ := pushFirst_isSome hroom
    rw [deallocate_push hp]
    obtain ⟨_, h2, h3⟩ := pushFirst_spec hp
    exact ⟨h2, h3⟩
  · intro hfull
    rw [deallocate_newnode (pushFirst_none hfull)]
    refine ⟨rfl, ?_⟩
    show pagesOf (s.freeList ++ [⟨a, []⟩]) = pagesOf s.freeList
    rw [pagesOf_append]
    simp [pagesOf]
  · intro n hn hroom
    have hp : pushFirst a s.freeList = some [⟨n.addr, n.pages ++ [a]⟩] := by
      rw [hn]
      unfold pushFirst
      rw [if_pos hroom]
    rw [deallocate_push hp]
    have hpop :
        popFirst ({ s with freeList := [⟨n.addr, n.pages ++ [a]⟩] } :
            PageAllocator).freeList =
          some (a, [⟨n.addr, (n.pages ++ [a]).dropLast⟩]) := by
      show popFirst [⟨n.addr, n.pages ++ [a]⟩] = _
      unfold popFirst
      rw [List.getLast?_concat]
    rw [allocate_pop hpop]

/-- An allocator whose free list holds one node with room. -/
def exNodeAlloc : PageAllocator :=
  { provider := PageProvider.new exSegs1, freeList := [⟨0x9000, [0x5000]⟩] }

/-- Witness for the amended C6: deallocating 0x7000 when the single free-list
node has room parks it in the node's page array, and the next allocation
returns it. -/
theorem pageAllocator_dealloc_amended_w :
    0x7000 ∈ pagesOf (exNodeAlloc.deallocate 0x7000).freeList ∧
    (exNodeAlloc.deallocate 0x7000).allocate.1 = some 0x7000 :=
  ⟨((pageAllocator_dealloc_amended exNodeAlloc 0x7000).1
      ⟨⟨0x9000, [0x5000]⟩, by decide, by decide⟩).1,
   (pageAllocator_dealloc_amended exNodeAlloc 0x7000).2.2
      ⟨0x9000, [0x5000]⟩ rfl (by decide)⟩

/-! ## Page-owned box round trip (C10) -/

/-- Claim C10: when PageBox::new(v) succeeds, into_inner on the result returns
exactly v and hands the backing frame (the frame allocate returned) back to
the page allocator, where it is tracked by the free list; when the page
allocation fails, new returns Err(v), giving back the original value with no
frame held by the box. -/
theorem pageBox_roundtrip {T : Type} (s : PageAllocator) (v : T) :
    (∀ v', (PageBox.new s v).1 = .error v' → v' = v) ∧
    (∀ b : PageBoxM T, (PageBox.new s v).1 = .ok b →
      (∃ s1, s.allocate = (some b.page, s1) ∧ (PageBox.new s v).2 = s1) ∧
      (PageBox.intoInner (PageBox.new s v).2 b).1 = v ∧
      (PageBox.intoInner (PageBox.new s v).2 b).2 =
        ((PageBox.new s v).2).deallocate b.page ∧
      (b.page ∈ pagesOf ((PageBox.intoInner (PageBox.new s v).2 b).2).freeList ∨
       b.page ∈ nodeAddrs ((PageBox.intoInner (PageBox.new s v).2 b).2).freeList)) := by
  have htrack : ∀ (s2 : PageAllocator) (f : Nat),
      f ∈ pagesOf (s2.deallocate f).freeList ∨
      f ∈ nodeAddrs (s2.deallocate f).freeList := by
    intro s2 f
    cases hp : pushFirst f s2.freeList with
    | some fl' =>
        rw [deallocate_push hp]
        exact Or.inl (pushFirst_spec hp).2.1
    | none =>
        rw [deallocate_newnode hp]
        refine Or.inr ?_
        show f ∈ nodeAddrs (s2.freeList ++ [⟨f, []⟩])
        simp [nodeAddrs]
  cases ha : s.allocate with
  | mk o s' =>
      cases o with
      | none =>
          constructor
          · intro v' hv'
            unfold PageBox.new at hv'
            rw [ha] at hv'
            simpa using hv'.symm
          · intro b hb
            unfold PageBox.new at hb
            rw [ha] at hb
            simp at hb
      | some f =>
          constructor
          · intro v' hv'
            unfold PageBox.new at hv'
            rw [ha] at hv'
            simp at hv'
          · intro b hb
            have hb' : b = ⟨f, v⟩ := by
              unfold PageBox.new at hb
              rw [ha] at hb
              simpa using hb.symm
            have hs2 : (PageBox.new s v).2 = s' := by
              unfold PageBox.new
              rw [ha]
            subst hb'
            refine ⟨⟨s', rfl, hs2⟩, rfl, rfl, ?_⟩
            exact htrack _ _

/-- Witness for C10: a round trip of the value 42 through a page box over the
one-page allocator hands frame 0x1000 back to the free list. -/
theorem pageBox_roundtrip_w :
    (PageBox.intoInner (PageBox.new (PageAllocator.init exSegs1) (42 : Nat)).2
        ⟨0x1000, 42⟩).1 = 42 ∧
    (0x1000 ∈ pagesOf ((PageBox.intoInner
        (PageBox.new (PageAllocator.init exSegs1) (42 : Nat)).2
        ⟨0x1000, 42⟩).2).freeList ∨
     0x1000 ∈ nodeAddrs ((PageBox.intoInner
        (PageBox.new (PageAllocator.init exSegs1) (42 : Nat)).2
        ⟨0x1000, 42⟩).2).freeList) :=
  ⟨((pageBox_roundtrip (PageAllocator.init exSegs1) 42).2 ⟨0x1000, 42⟩
      (by rfl)).2.1,
   ((pageBox_roundtrip (PageAllocator.init exSegs1) 42).2 ⟨0x1000, 42⟩
      (by rfl)).2.2.2⟩

/-! ## Small-object allocator scan bound (C3) -/

/-- Claim C3 is violated by the code (code bug): for layout (size 128, align
8), so 2 slots with stride 1, on a page whose occupancy word has bits 0..62
set and bit 63 clear (reachable by filling the page with 64 one-slot
allocations and freeing the one at slot 63), the scan loop — whose condition
is slot_idx < SLOT_COUNT rather than slot_idx ≤ SLOT_COUNT − n — reaches
candidate slot 63; the 64-bit mask for (63, 2) silently truncates to bit 63
alone, so the occupancy test passes and the allocation is placed at slot 63:
the returned pointer is page + 4032 and 4032 + 128 exceeds the 4096-byte
page. -/
theorem pageMeta_allocate_crosses_page :
    slotCountOf 128 = 2 ∧
    slotAlignOf 8 = 1 ∧
    PageMeta.mask 63 2 = (1 <<< 63) ∧
    PageMeta.allocate (2 ^ 63 - 1) 2 1 = some (63, 2 ^ 64 - 1) ∧
    63 * SLOT_SIZE + 128 > 4096 ∧
    ¬ 63 ≤ SLOT_COUNT - 2 := by
  decide

/-! ## Memory-mapper drop (C1) -/

/-- A page-table hierarchy for a mapper owning one leaf mapping at virtual
address 0x1000 (all level indices 0 except the level-1 index, which is 1):
PML4 at 0x1000 → PDPT at 0x2000 → PD at 0x3000 → PT at 0x4000 → owned leaf
frame 0x5000 at PT index 1. Each entry carries
PRESENT | WRITABLE | USER_ACCESSIBLE | OWNED (raw 0x207). -/
def exDropMem : PhysMem :=
  [ (0x1000, (List.replicate 512 0).set 0 0x2207),
    (0x2000, (List.replicate 512 0).set 0 0x3207),
    (0x3000, (List.replicate 512 0).set 0 0x4207),
    (0x4000, (List.replicate 512 0).set 1 0x5207) ]

set_option maxRecDepth 100000 in
/-- Claim C1 is violated by the code (code bug): each drop_recursive call
deallocates table.0[0].addr() — the address field of the table's first
entry — instead of the table's own frame. On the hierarchy above the code
deallocates [0x0, 0x4000, 0x3000, 0x2000]: physical frame 0 (never allocated
by the mapper; PT entry 0 is unused) is handed to the page allocator, while
the owned leaf 0x5000 and the PML4 0x1000 leak. The spec-side walk returns
exactly the PML4, the owned intermediates and the owned leaf. -/
theorem memoryMapper_drop_wrong_frames :
    memoryMapperDropDeallocs exDropMem 0x1000 = [0, 0x4000, 0x3000, 0x2000] ∧
    specMapperDropDeallocs exDropMem 0x1000 =
      [0x5000, 0x4000, 0x3000, 0x2000, 0x1000] ∧
    0 ∉ specMapperDropDeallocs exDropMem 0x1000 ∧
    0x5000 ∉ memoryMapperDropDeallocs exDropMem 0x1000 ∧
    0x1000 ∉ memoryMapperDropDeallocs exDropMem 0x1000 := by
  refine ⟨?_, ?_, ?_, ?_, ?_⟩ <;> decide

/-! ## create_mapping and the present bit (C7) -/

instance {ε α : Type} [DecidableEq ε] [DecidableEq α] : DecidableEq (Except ε α) :=
  fun x y =>
    match x, y with
    | .error e, .error f =>
        if h : e = f then .isTrue (by rw [h])
        else .isFalse (fun hc => h (by injection hc))
    | .error _, .ok _ => .isFalse (fun hc => Except.noConfusion hc)
    | .ok _, .error _ => .isFalse (fun hc => Except.noConfusion hc)
    | .ok a, .ok b =>
        if h : a = b then .isTrue (by rw [h])
        else .isFalse (fun hc => h (by injection hc))

theorem readTable_writeEntry (mem : PhysMem) (t idx val : Nat) :
    readTable (writeEntry mem t idx val) t = (readTable mem t).set idx val := by
  induction mem with
  | nil => rfl
  | cons p rest ih =>
      obtain ⟨a, es⟩ := p
      by_cases h : a = t
      · subst h
        simp [readTable, writeEntry]
      · simp [readTable, writeEntry, h, ih]

theorem getD_set_lt : ∀ (l : List Nat) (i v : Nat), i < l.length →
    (l.set i v).getD i 0 = v := by
  intro l
  induction l with
  | nil => intro i v h; simp at h
  | cons x xs ih =>
      intro i v h
      cases i with
      | zero => rfl
      | succ j =>
          simp only [List.set_cons_succ, List.getD_cons_succ]
          exact ih j v (by simpa using h)

theorem create_mapping_oom {st : MapperState} {virt phys flags : Nat}
    (h : st.entry virt = none) :
    st.create_mapping virt phys flags = .error .outOfPhysicalMemory := by
  unfold MapperState.create_mapping
  rw [h]

theorem create_mapping_walk {st st' : MapperState} {virt t1 i1 phys flags : Nat}
    (h : st.entry virt = some (st', t1, i1)) :
    st.create_mapping virt phys flags =
      (if (readTable st'.mem t1).getD i1 0 ≠ 0 then
        .error (.alreadyMapped (entryAddr ((readTable st'.mem t1).getD i1 0)))
      else .ok { st' with mem := writeEntry st'.mem t1 i1 (phys ||| flags) }) := by
  unfold MapperState.create_mapping
  rw [h]

theorem entry_index {st st' : MapperState} {virt t1 i1 : Nat}
    (h : st.entry virt = some (st', t1, i1)) : i1 = tableIdx virt 12 := by
  unfold MapperState.entry at h
  split at h
  · simp at h
  · split at h
    · simp at h
    · split at h
      · simp at h
      · simp only [Option.some.injEq] at h
        injection h with e1 e2
        injection e2 with e3 e4
        exact e4.symm

/-- Claim C7 amended: create_mapping fails with AlreadyMapped(existing_phys)
exactly when the raw leaf PTE for virt is nonzero — an entry whose present bit
is clear but that has any other bit set still counts as in use, since the code
compares against the all-zero UNUSED entry rather than testing the present
bit — and when the raw PTE is zero it writes (phys | flags) into it (readable
back afterwards) and succeeds; OutOfMemory is returned when the walk's
intermediate-table allocation fails. -/
theorem create_mapping_raw_unused (st : MapperState) (virt phys flags : Nat) :
    (st.entry virt = none →
      st.create_mapping virt phys flags = .error .outOfPhysicalMemory) ∧
    (∀ (st' : MapperState) (t1 i1 : Nat), st.entry virt = some (st', t1, i1) →
      ((readTable st'.mem t1).getD i1 0 ≠ 0 →
        st.create_mapping virt phys flags =
          .error (.alreadyMapped (entryAddr ((readTable st'.mem t1).getD i1 0)))) ∧
      ((readTable st'.mem t1).getD i1 0 = 0 →
        st.create_mapping virt phys flags =
          .ok { st' with mem := writeEntry st'.mem t1 i1 (phys ||| flags) } ∧
        ((readTable st'.mem t1).length = 512 →
          (readTable (writeEntry st'.mem t1 i1 (phys ||| flags)) t1).getD i1 0 =
            phys ||| flags))) := by
  constructor
  · exact create_mapping_oom
  · intro st' t1 i1 h
    constructor
    · intro hne
      rw [create_mapping_walk h, if_pos hne]
    · intro hz
      refine ⟨by rw [create_mapping_walk h, if_neg (not_ne_iff.mpr hz)], ?_⟩
      intro hlen
      rw [readTable_writeEntry]
      apply getD_set_lt
      have hi : i1 = tableIdx virt 12 := entry_index h
      have hle : tableIdx virt 12 ≤ 511 := Nat.and_le_right
      omega

/-- A 16-page usable segment for the mapper runs. -/
def exMapSegs : List MemorySegment := [⟨0x1000, 0x10000⟩]

/-- A placeholder mapper (never reached in the concrete runs below). -/
def dfltMapper : MapperState := ⟨[], 0, PageAllocator.init []⟩

/-- A freshly created mapper over the 16-page allocator: PML4 at 0x1000. -/
def exMapper0 : MapperState :=
  (MapperState.new (PageAllocator.init exMapSegs)).getD dfltMapper

/-- The mapper after create_mapping(0, 0xA000, WRITABLE): the leaf PTE for
virtual 0 holds the raw word 0xA002, whose present bit is clear. -/
def exMapper1 : MapperState :=
  (exMapper0.create_mapping 0 0xA000 FLAG_WRITABLE).toOption.getD dfltMapper

set_option maxRecDepth 1000000 in
/-- Counterexample to claim C7 as stated: create_mapping(0, 0xA000, WRITABLE)
on a fresh mapper succeeds and leaves the leaf PTE for virtual 0 with raw
value 0xA002 — nonzero but with the present bit clear, hence unused according
to the claim — yet the second call create_mapping(0, 0xB000,
PRESENT|WRITABLE) does not write the mapping: it fails with
AlreadyMapped(0xA000). -/
theorem create_mapping_rejects_nonpresent :
    exMapper0.create_mapping 0 0xA000 FLAG_WRITABLE = .ok exMapper1 ∧
    (readTable exMapper1.mem 0x4000).getD 0 0 = 0xA002 ∧
    entryPresent ((readTable exMapper1.mem 0x4000).getD 0 0) = false ∧
    (readTable exMapper1.mem 0x4000).getD 0 0 ≠ 0 ∧
    exMapper1.create_mapping 0 0xB000 (FLAG_PRESENT ||| FLAG_WRITABLE) =
      .error (.alreadyMapped 0xA000) := by
  refine ⟨by decide, by decide, by decide, by decide, by decide⟩

/-- The state of the walk performed inside the first create_mapping call. -/
def exWalkSt : MapperState :=
  ((exMapper0.entry 0).getD (dfltMapper, 0, 0)).1

set_option maxRecDepth 1000000 in
/-- Witness for the amended C7 at the fresh mapper: the walk for virtual 0
ends at table 0x4000, index 0, whose raw PTE is zero, so the call succeeds and
the written leaf reads back as 0xA000 | WRITABLE. -/
theorem create_mapping_raw_unused_w :
    exMapper0.create_mapping 0 0xA000 FLAG_WRITABLE =
      .ok { exWalkSt with
              mem := writeEntry exWalkSt.mem 0x4000 0 (0xA000 ||| FLAG_WRITABLE) } ∧
    (readTable (writeEntry exWalkSt.mem 0x4000 0 (0xA000 ||| FLAG_WRITABLE))
        0x4000).getD 0 0 = 0xA000 ||| FLAG_WRITABLE := by
  have h := (create_mapping_raw_unused exMapper0 0 0xA000 FLAG_WRITABLE).2
    exWalkSt 0x4000 0 (by decide)
  have h2 := h.2 (by decide)
  exact ⟨h2.1, h2.2 (by decide)⟩

/-! ## Identity-map page-size selection (C8) -/

/-- Counterexample to claim C8 as stated: for upper_bound = 1.5 GiB the code's
first step is a 1 GiB mapping — map_range tests only the remaining length
(amount >= ONE_GIGABYTE) — although the remaining length 0x60000000 is not
1 GiB-aligned, so the claim's selection rule prescribes a 2 MiB mapping for
that step. -/
theorem mapRange_size_choice_diverges :
    (setupPagingIdentitySteps 0x60000000).head? = some ⟨ONE_GIGABYTE, 0, 0⟩ ∧
    (specMapSteps 0 0 0x60000000).head? = some ⟨TWO_MEGABYTES, 0, 0⟩ ∧
    ONE_GIGABYTE ≠ TWO_MEGABYTES ∧
    ¬ (0x60000000 : Nat) % ONE_GIGABYTE = 0 := by
  refine ⟨?_, ?_, by decide, by decide⟩
  · unfold setupPagingIdentitySteps
    rw [mapRangeSteps]
    rw [if_neg (by decide), if_pos (by decide)]
    rfl
  · rw [specMapSteps]
    rw [if_neg (by decide), if_neg (by decide), if_pos (by decide)]
    rfl

/-- The alignment invariant maintained along the identity-map walk started at
address 0: the address is 4 KiB-aligned, 2 MiB-aligned while at least 2 MiB
remain, and 1 GiB-aligned while at least 1 GiB remains. -/
def RangeInv (virt amount : Nat) : Prop :=
  virt % FOUR_KILOBYTES = 0 ∧
  (TWO_MEGABYTES ≤ amount → virt % TWO_MEGABYTES = 0) ∧
  (ONE_GIGABYTE ≤ amount → virt % ONE_GIGABYTE = 0)

instance (virt amount : Nat) : Decidable (RangeInv virt amount) := by
  unfold RangeInv; infer_instance

/-- Claim C8 amended: map_range picks the page size from the remaining length
alone — 1 GiB while at least 1 GiB remains, else 2 MiB while at least 2 MiB
remains, else 4 KiB — and on the identity-map call, which starts at address 0
(so the alignment invariant holds), every step maps virtual = physical at an
address aligned to the chosen page size, and the steps cover every byte below
upper_bound. -/
theorem mapRange_identity_covers : ∀ amount virt : Nat, RangeInv virt amount →
    (∀ st ∈ mapRangeSteps virt virt amount,
      st.phys = st.virt ∧ st.virt % st.size = 0 ∧
      (st.size = ONE_GIGABYTE ∨ st.size = TWO_MEGABYTES ∨
        st.size = FOUR_KILOBYTES)) ∧
    (∀ b, b < amount → ∃ st ∈ mapRangeSteps virt virt amount,
      st.virt ≤ virt + b ∧ virt + b < st.virt + st.size) := by
  intro amount
  induction amount using Nat.strong_induction_on with
  | _ amount ih =>
    intro virt hinv
    obtain ⟨i4, i2m, i1g⟩ := hinv
    by_cases h0 : amount = 0
    · subst h0
      constructor
      · intro st hst
        rw [mapRangeSteps] at hst
        simp at hst
      · intro b hb
        omega
    · by_cases h1 : ONE_GIGABYTE ≤ amount
      · have hstep : mapRangeSteps virt virt amount =
            ⟨ONE_GIGABYTE, virt, virt⟩ ::
              mapRangeSteps (virt + ONE_GIGABYTE) (virt + ONE_GIGABYTE)
                (amount - ONE_GIGABYTE) := by
          rw [mapRangeSteps, if_neg h0, if_pos h1]
        have hlt : amount - ONE_GIGABYTE < amount := by
          have : 0 < ONE_GIGABYTE := by decide
          omega
        have hinv' : RangeInv (virt + ONE_GIGABYTE) (amount - ONE_GIGABYTE) := by
          have hv := i1g h1
          refine ⟨?_, fun h => ?_, fun h => ?_⟩ <;>
            simp only [ONE_GIGABYTE, TWO_MEGABYTES, FOUR_KILOBYTES] at * <;>
            omega
        obtain ⟨ihm, ihc⟩ := ih _ hlt _ hinv'
        constructor
        · intro st hst
          rw [hstep] at hst
          rcases List.mem_cons.mp hst with rfl | hst
          · exact ⟨rfl, i1g h1, Or.inl rfl⟩
          · exact ihm st hst
        · intro b hb
          by_cases hb1 : b < ONE_GIGABYTE
          · refine ⟨⟨ONE_GIGABYTE, virt, virt⟩, ?_, ?_⟩
            · rw [hstep]
              exact List.mem_cons_self _ _
            · dsimp only
              omega
          · obtain ⟨st, hst, hc1, hc2⟩ := ihc (b - ONE_GIGABYTE) (by omega)
            refine ⟨st, ?_, ?_⟩
            · rw [hstep]
              exact List.mem_cons_of_mem _ hst
            · omega
      · by_cases h2 : TWO_MEGABYTES ≤ amount
        · have hstep : mapRangeSteps virt virt amount =
              ⟨TWO_MEGABYTES, virt, virt⟩ ::
                mapRangeSteps (virt + TWO_MEGABYTES) (virt + TWO_MEGABYTES)
                  (amount - TWO_MEGABYTES) := by
            rw [mapRangeSteps, if_neg h0, if_neg h1, if_pos h2]
          have hlt : amount - TWO_MEGABYTES < amount := by
            have : 0 < TWO_MEGABYTES := by decide
            omega
          have hinv' : RangeInv (virt + TWO_MEGABYTES) (amount - TWO_MEGABYTES) := by
            have hv := i2m h2
            refine ⟨?_, fun h => ?_, fun h => ?_⟩ <;>
              simp only [ONE_GIGABYTE, TWO_MEGABYTES, FOUR_KILOBYTES] at * <;>
              omega
          obtain ⟨ihm, ihc⟩ := ih _ hlt _ hinv'
          constructor
          · intro st hst
            rw [hstep] at hst
            rcases List.mem_cons.mp hst with rfl | hst
            · exact ⟨rfl, i2m h2, Or.inr (Or.inl rfl)⟩
            · exact ihm st hst
          · intro b hb
            by_cases hb1 : b < TWO_MEGABYTES
            · refine ⟨⟨TWO_MEGABYTES, virt, virt⟩, ?_, ?_⟩
              · rw [hstep]
                exact List.mem_cons_self _ _
              · dsimp only
                omega
            · obtain ⟨st, hst, hc1, hc2⟩ := ihc (b - TWO_MEGABYTES) (by omega)
              refine ⟨st, ?_, ?_⟩
              · rw [hstep]
                exact List.mem_cons_of_mem _ hst
              · omega
        · have hstep : mapRangeSteps virt virt amount =
              ⟨FOUR_KILOBYTES, virt, virt⟩ ::
                mapRangeSteps (virt + FOUR_KILOBYTES) (virt + FOUR_KILOBYTES)
                  (amount - FOUR_KILOBYTES) := by
            rw [mapRangeSteps, if_neg h0, if_neg h1, if_neg h2]
          have hlt : amount - FOUR_KILOBYTES < amount := by
            have : 0 < FOUR_KILOBYTES := by decide
            omega
          have hinv' : RangeInv (virt + FOUR_KILOBYTES) (amount - FOUR_KILOBYTES) := by
            refine ⟨?_, fun h => ?_, fun h => ?_⟩ <;>
              simp only [ONE_GIGABYTE, TWO_MEGABYTES, FOUR_KILOBYTES] at * <;>
              omega
          obtain ⟨ihm, ihc⟩ := ih _ hlt _ hinv'
          constructor
          · intro st hst
            rw [hstep] at hst
            rcases List.mem_cons.mp hst with rfl | hst
            · exact ⟨rfl, i4, Or.inr (Or.inr rfl)⟩
            · exact ihm st hst
          · intro b hb
            by_cases hb1 : b < FOUR_KILOBYTES
            · refine ⟨⟨FOUR_KILOBYTES, virt, virt⟩, ?_, ?_⟩
              · rw [hstep]
                exact List.mem_cons_self _ _
              · dsimp only
                omega
            · obtain ⟨st, hst, hc1, hc2⟩ := ihc (b - FOUR_KILOBYTES)
                (by simp only [FOUR_KILOBYTES] at *; omega)
              refine ⟨st, ?_, ?_⟩
              · rw [hstep]
                exact List.mem_cons_of_mem _ hst
              · omega

/-- Witness for the amended C8: the walk over upper_bound 0x3000 starts with
the trivially satisfied invariant at address 0 and covers byte 0x1500. -/
theorem mapRange_identity_covers_w :
    RangeInv 0 0x3000 ∧
    ∃ st ∈ mapRangeSteps 0 0 0x3000,
      st.virt ≤ 0x1500 ∧ 0x1500 < st.virt + st.size := by
  refine ⟨by decide, ?_⟩
  have h := (mapRange_identity_covers 0x3000 0 (by decide)).2 0x1500 (by decide)
  simpa using h

end Neodym
